import Mathlib

/-!
Shallow embedding of the job-application tracker's core logic
(src/utils/types.ts, src/utils/actions.ts, src/components/DownloadDropdown.tsx).

Timestamps: the source stores JavaScript `Date` values and manipulates them
with dayjs (month subtraction, "MMM YY" / "YYYY-MM" formatting, ordering).
We embed a timestamp as a single `Nat` measured in minutes on a
month-uniform calendar: every month has exactly `monthUnit` minutes, so
`t / monthUnit` is the absolute calendar-month index (`year * 12 + month0`),
ordering of timestamps is `Nat` ordering, and dayjs's
`subtract(6, "month")` is subtraction of `6 * monthUnit`
(dayjs's end-of-month day clamping is not observable by any claim here).
Strings are Lean `String`; zod's length checks count characters.
-/

namespace JobTracker

/-- Minutes per calendar month in the month-uniform timestamp model. -/
def monthUnit : Nat := 44640

/-- Absolute calendar-month index of a timestamp. -/
def monthIdx (t : Nat) : Nat := t / monthUnit

/-- dayjs short month name for a month-of-year index (0 = Jan .. 11 = Dec). -/
def monthName (m : Nat) : String :=
  match m with
  | 0 => "Jan" | 1 => "Feb" | 2 => "Mar" | 3 => "Apr"
  | 4 => "May" | 5 => "Jun" | 6 => "Jul" | 7 => "Aug"
  | 8 => "Sep" | 9 => "Oct" | 10 => "Nov" | _ => "Dec"

/-- dayjs "YY": the year padded to two digits, truncated modulo 100. -/
def twoDigitYear (y : Nat) : String :=
  let r := y % 100
  (if r < 10 then "0" else "") ++ toString r

/-- dayjs `format("MMM YY")` of an absolute calendar-month index: short
month name plus two-digit year. Distinct months 100 years apart receive the
same label, exactly as in the source format. -/
def labelOfMonth (m : Nat) : String :=
  monthName (m % 12) ++ " " ++ twoDigitYear (m / 12)

/-- dayjs `format("MMM YY")` applied to a timestamp (the chart bucket
label). -/
def monthLabel (t : Nat) : String := labelOfMonth (monthIdx t)

/-- The persisted job record (`JobType` in src/utils/types.ts). -/
structure Job where
  id : String
  clerkId : String
  position : String
  company : String
  location : String
  status : String
  mode : String
  appliedDate : Nat
  lastContact : Option Nat
  nextFollowUp : Option Nat
  salaryRange : Option String
  jobUrl : Option String
  website : Option String
  resumeId : Option String
  coverLetterUrl : Option String
  notes : Option String
  createdAt : Nat
  updatedAt : Nat
deriving DecidableEq, Repr

/-- `JobStatus` enum values from src/utils/types.ts. -/
def jobStatusValues : List String :=
  ["applied", "screening", "interview", "offer", "rejected"]

/-- `JobMode` enum values from src/utils/types.ts. -/
def jobModeValues : List String :=
  ["full-time", "part-time", "contract", "remote", "hybrid"]

/-! ## Validation layer (createAndEditJobSchema, src/utils/types.ts)

A raw form submission: required text fields are plain strings, optional
fields are `Option String` (`none` models a JavaScript `undefined`). -/

/-- Drop leading whitespace characters. -/
def dropLeadingWs : List Char → List Char
  | [] => []
  | c :: t => if c.isWhitespace then dropLeadingWs t else c :: t

/-- JavaScript `String.prototype.trim` (the transform zod's `.trim()`
applies): strip whitespace from both ends. -/
def jsTrim (s : String) : String :=
  String.mk ((dropLeadingWs (dropLeadingWs s.data).reverse).reverse)

structure RawJobInput where
  position : String
  company : String
  location : String
  status : String
  mode : String
  salaryRange : Option String
  jobUrl : Option String
  website : Option String
  coverLetterUrl : Option String
  resumeId : Option String
  notes : Option String
deriving DecidableEq, Repr

/-- A zod issue: the offending field and its human-readable message. -/
structure FieldError where
  field : String
  message : String
deriving DecidableEq, Repr

/-- The parsed payload (`CreateAndEditJobType`). -/
structure CreateAndEditJob where
  position : String
  company : String
  location : String
  status : String
  mode : String
  salaryRange : Option String
  jobUrl : Option String
  website : Option String
  coverLetterUrl : Option String
  resumeId : Option String
  notes : Option String
deriving DecidableEq, Repr

/-- `z.string().min(lo).max(hi).trim()`: zod runs the checks in order, so the
length bounds apply to the raw string, and the trailing `.trim()` only
transforms the already-accepted value. -/
def parseRequiredText (field : String) (lo hi : Nat) (lowMsg highMsg s : String) :
    Except FieldError String :=
  if s.length < lo then .error ⟨field, lowMsg⟩
  else if hi < s.length then .error ⟨field, highMsg⟩
  else .ok (jsTrim s)

/-- `z.nativeEnum(E)`: accepted exactly when the raw string is one of the
enum values. -/
def parseEnum (field : String) (values : List String) (msg s : String) :
    Except FieldError String :=
  if values.contains s then .ok s else .error ⟨field, msg⟩

/-- `z.string().max(hi).trim().optional().or(z.literal(''))`
(salaryRange, notes): `undefined` passes `.optional()`; a string within the
length bound is trimmed; the `z.literal('')` branch would also admit the
empty string, but the empty string already satisfies `.max(hi)`, so that
branch is unreachable. -/
def parseOptTrimmed (field : String) (hi : Nat) (msg : String) :
    Option String → Except FieldError (Option String)
  | none => .ok none
  | some s =>
    if s.length ≤ hi then .ok (some (jsTrim s))
    else if s == "" then .ok (some "")
    else .error ⟨field, msg⟩

/-- `z.string().url().max(500).optional().or(z.literal(''))`
(jobUrl, website, coverLetterUrl): `undefined` passes `.optional()`; a
syntactically valid URL within the bound passes unchanged; the empty
string passes through the `z.literal('')` union branch. URL syntax is the
ambient `isValidUrl` predicate. -/
def parseOptUrl (field : String) (isValidUrl : String → Bool) :
    Option String → Except FieldError (Option String)
  | none => .ok none
  | some s =>
    if isValidUrl s && s.length ≤ 500 then .ok (some s)
    else if s == "" then .ok (some "")
    else if !isValidUrl s then .error ⟨field, "Please enter a valid URL"⟩
    else .error ⟨field, "URL must not exceed 500 characters"⟩

/-- `z.string().uuid().optional().or(z.literal(''))` (resumeId), with UUID
syntax as the ambient `isValidUuid` predicate. -/
def parseOptUuid (field : String) (isValidUuid : String → Bool) :
    Option String → Except FieldError (Option String)
  | none => .ok none
  | some s =>
    if isValidUuid s then .ok (some s)
    else if s == "" then .ok (some "")
    else .error ⟨field, "Invalid resume ID format"⟩

/-- `createAndEditJobSchema.parse` (src/utils/types.ts, lines 40-107).
`isValidUrl` / `isValidUuid` stand for zod's URL and UUID syntax checks. -/
def createAndEditJobSchemaParse (isValidUrl isValidUuid : String → Bool)
    (raw : RawJobInput) : Except FieldError CreateAndEditJob := do
  let position ← parseRequiredText "position" 2 200
    "Position must be at least 2 characters"
    "Position must not exceed 200 characters" raw.position
  let company ← parseRequiredText "company" 2 200
    "Company must be at least 2 characters"
    "Company must not exceed 200 characters" raw.company
  let location ← parseRequiredText "location" 2 200
    "Location must be at least 2 characters"
    "Location must not exceed 200 characters" raw.location
  let status ← parseEnum "status" jobStatusValues
    "Please select a valid status" raw.status
  let mode ← parseEnum "mode" jobModeValues
    "Please select a valid employment type" raw.mode
  let salaryRange ← parseOptTrimmed "salaryRange" 100
    "Salary range must not exceed 100 characters" raw.salaryRange
  let jobUrl ← parseOptUrl "jobUrl" isValidUrl raw.jobUrl
  let website ← parseOptUrl "website" isValidUrl raw.website
  let coverLetterUrl ← parseOptUrl "coverLetterUrl" isValidUrl raw.coverLetterUrl
  let resumeId ← parseOptUuid "resumeId" isValidUuid raw.resumeId
  let notes ← parseOptTrimmed "notes" 5000
    "Notes must not exceed 5000 characters" raw.notes
  pure ⟨position, company, location, status, mode,
        salaryRange, jobUrl, website, coverLetterUrl, resumeId, notes⟩

/-- The sanitized payload produced by `sanitizeJobInput`: optional fields are
either a non-empty string or `none` (a stored SQL NULL). -/
structure SanitizedJob where
  position : String
  company : String
  location : String
  status : String
  mode : String
  salaryRange : Option String
  jobUrl : Option String
  website : Option String
  coverLetterUrl : Option String
  resumeId : Option String
  notes : Option String
deriving DecidableEq, Repr

/-- JavaScript `x || null` on an optional string: `undefined` and the empty
string (the only falsy strings reachable here) become `null`. -/
def jsStringOrNull : Option String → Option String
  | none => none
  | some s => if s == "" then none else some s

/-- `sanitizeJobInput` (src/utils/types.ts, lines 111-125). -/
def sanitizeJobInput (input : CreateAndEditJob) : SanitizedJob :=
  { position := input.position
    company := input.company
    location := input.location
    status := input.status
    mode := input.mode
    salaryRange := jsStringOrNull input.salaryRange
    jobUrl := jsStringOrNull input.jobUrl
    website := jsStringOrNull input.website
    coverLetterUrl := jsStringOrNull input.coverLetterUrl
    resumeId := jsStringOrNull input.resumeId
    notes := jsStringOrNull input.notes }

/-! ## Server actions (src/utils/actions.ts)

Persistent storage is a list of `Job` records; a lower-level storage error
is modeled by the `storageFails` flag (when set, the Prisma call inside the
`try` block throws and control reaches the `catch` branch). A Next.js
`redirect(path)` call is an outcome, not a return value, so every action
result is an `ActionResult`. -/

/-- Outcome of a server action: a returned value, a returned `null`, or a
thrown Next.js redirect. -/
inductive ActionResult (α : Type) where
  | ok (value : α)
  | nullResult
  | redirect (path : String)
deriving DecidableEq, Repr

/-- Case-insensitive substring test over character lists. -/
def containsSubList (hay needle : List Char) : Bool :=
  needle.isPrefixOf hay ||
    match hay with
    | [] => false
    | _ :: t => containsSubList t needle

/-- Prisma `{ contains: needle, mode: 'insensitive' }` on a string field. -/
def containsCI (hay needle : String) : Bool :=
  containsSubList hay.toLower.toList needle.toLower.toList

/-- The `whereClause` built by `getAllJobsAction` (lines 131-153), as a
predicate on records: always `clerkId = userId`; the search OR-clause is
added only when `search` is truthy (present and non-empty); the status
clause is added only when `jobStatus` is truthy and not `"all"`. -/
def matchesWhere (userId : String) (search jobStatus : Option String) (j : Job) : Bool :=
  j.clerkId == userId
  && (match search with
      | none => true
      | some s => if s == "" then true
                  else containsCI j.position s || containsCI j.company s)
  && (match jobStatus with
      | none => true
      | some st => if st == "" || st == "all" then true else j.status == st)

/-- Prisma `orderBy: { appliedDate: "desc" }`. -/
def sortByAppliedDesc (jobs : List Job) : List Job :=
  jobs.insertionSort (fun a b => b.appliedDate ≤ a.appliedDate)

/-- Prisma `orderBy: { appliedDate: "asc" }`. -/
def sortByAppliedAsc (jobs : List Job) : List Job :=
  jobs.insertionSort (fun a b => a.appliedDate ≤ b.appliedDate)

/-- `Math.ceil(count / limit)` for a positive `limit`. -/
def jsCeilDiv (count limit : Nat) : Nat := (count + limit - 1) / limit

/-- Result shape of `getAllJobsAction`. -/
structure JobsPage where
  jobs : List Job
  count : Nat
  page : Nat
  totalPages : Nat
deriving DecidableEq, Repr

/-- `getAllJobsAction` (lines 117-178): filter by the where-clause, sort by
applied date descending, skip `(page-1)*limit`, take `limit`; `count` is the
unpaginated matching total and `totalPages = Math.ceil(count / limit)`. On a
storage error the catch branch returns `{jobs: [], count: 0, page: 1,
totalPages: 0}`. -/
def getAllJobsAction (userId : String) (search jobStatus : Option String)
    (page limit : Nat) (storageFails : Bool) (db : List Job) : JobsPage :=
  if storageFails then ⟨[], 0, 1, 0⟩
  else
    let matching := db.filter (matchesWhere userId search jobStatus)
    let skip := (page - 1) * limit
    let jobs := ((sortByAppliedDesc matching).drop skip).take limit
    let count := matching.length
    ⟨jobs, count, page, jsCeilDiv count limit⟩

/-- `createJobAction` (lines 60-89): validate, sanitize, then insert a record
owned by the caller. The database assigns `id` (modeled by `newId`) and the
`appliedDate/createdAt/updatedAt` defaults (modeled by `now`). A validation
failure or storage error is caught and `null` returned. -/
def createJobAction (isValidUrl isValidUuid : String → Bool) (userId : String)
    (values : RawJobInput) (storageFails : Bool) (newId : String) (now : Nat) :
    ActionResult Job :=
  match createAndEditJobSchemaParse isValidUrl isValidUuid values with
  | .error _ => .nullResult
  | .ok validated =>
    let s := sanitizeJobInput validated
    if storageFails then .nullResult
    else .ok
      { id := newId, clerkId := userId
        position := s.position, company := s.company, location := s.location
        status := s.status, mode := s.mode
        appliedDate := now, lastContact := none, nextFollowUp := none
        salaryRange := s.salaryRange, jobUrl := s.jobUrl, website := s.website
        resumeId := s.resumeId, coverLetterUrl := s.coverLetterUrl
        notes := s.notes, createdAt := now, updatedAt := now }

/-- Prisma `findUnique({ where: { id, clerkId } })`: the record whose unique
id matches, provided it is owned by the caller. -/
def findOwned (userId id : String) (db : List Job) : Option Job :=
  db.find? (fun j => j.id == id && j.clerkId == userId)

/-- `updateJobAction` (lines 251-282): validate, sanitize, then overwrite the
mutable fields of the record matching `id` and `clerkId`. A missing record
makes `prisma.job.update` throw, so it is caught and `null` returned, as are
validation failures and storage errors. -/
def updateJobAction (isValidUrl isValidUuid : String → Bool) (userId id : String)
    (values : RawJobInput) (storageFails : Bool) (db : List Job) (now : Nat) :
    ActionResult Job :=
  match createAndEditJobSchemaParse isValidUrl isValidUuid values with
  | .error _ => .nullResult
  | .ok validated =>
    let s := sanitizeJobInput validated
    if storageFails then .nullResult
    else
      match findOwned userId id db with
      | none => .nullResult
      | some j => .ok
        { j with
          position := s.position, company := s.company, location := s.location
          status := s.status, mode := s.mode
          salaryRange := s.salaryRange, jobUrl := s.jobUrl, website := s.website
          resumeId := s.resumeId, coverLetterUrl := s.coverLetterUrl
          notes := s.notes, updatedAt := now }

/-- `deleteJobAction` (lines 189-208): delete the record matching `id` and
`clerkId`; a missing record or storage error is caught and `null` returned. -/
def deleteJobAction (userId id : String) (storageFails : Bool) (db : List Job) :
    ActionResult Job :=
  if storageFails then .nullResult
  else
    match findOwned userId id db with
    | none => .nullResult
    | some j => .ok j

/-- `getSingleJobAction` (lines 219-239): `findUnique` on `id` and `clerkId`;
a missing record triggers `redirect("/jobs")`, and a storage error reaches
the catch branch which also calls `redirect("/jobs")`. -/
def getSingleJobAction (userId id : String) (storageFails : Bool) (db : List Job) :
    ActionResult Job :=
  if storageFails then .redirect "/jobs"
  else
    match findOwned userId id db with
    | none => .redirect "/jobs"
    | some j => .ok j

/-- Result shape of `getStatsAction`. -/
structure Stats where
  applied : Nat
  screening : Nat
  interview : Nat
  offer : Nat
  rejected : Nat
deriving DecidableEq, Repr

/-- Prisma `groupBy({ by: ["status"], _count: { status: true } })` over a
record set: one row per distinct status value present, with its count. -/
def statusGroups (records : List Job) : List (String × Nat) :=
  (records.map (·.status)).dedup.map
    (fun s => (s, records.countP (fun j => j.status == s)))

/-- The `reduce` into `statsObject` followed by the spread over the
zero-filled defaults (lines 312-325): each of the five keys takes the
grouped count when its status is present, else 0. -/
def statsLookup (groups : List (String × Nat)) (s : String) : Nat :=
  match groups.find? (fun p => p.1 == s) with
  | some p => p.2
  | none => 0

/-- `getStatsAction` (lines 292-332): group the caller's records by status
and merge with zero defaults; the catch branch calls `redirect("/jobs")`. -/
def getStatsAction (userId : String) (storageFails : Bool) (db : List Job) :
    ActionResult Stats :=
  if storageFails then .redirect "/jobs"
  else
    let groups := statusGroups (db.filter (fun j => j.clerkId == userId))
    .ok ⟨statsLookup groups "applied", statsLookup groups "screening",
         statsLookup groups "interview", statsLookup groups "offer",
         statsLookup groups "rejected"⟩

/-- One point of the monthly-trend chart data. -/
structure TrendPoint where
  date : String
  count : Nat
deriving DecidableEq, Repr

/-- One step of the `reduce` in `getChartsDataAction` (lines 361-372): if a
point with this record's "MMM YY" label exists, increment it in place,
otherwise push a new point with count 1. -/
def addToTrend (acc : List TrendPoint) (j : Job) : List TrendPoint :=
  let date := monthLabel j.appliedDate
  if acc.any (fun e => e.date == date) then
    bumpFirst acc date
  else acc ++ [⟨date, 1⟩]
where
  /-- Increment the first (and, by construction, only) point carrying the
  label. -/
  bumpFirst : List TrendPoint → String → List TrendPoint
    | [], _ => []
    | e :: rest, d =>
      if e.date == d then { e with count := e.count + 1 } :: rest
      else e :: bumpFirst rest d

/-- `getChartsDataAction` (lines 342-379): records of the caller with
`appliedDate ≥ now − 6 months` (inclusive `gte`), iterated in ascending
applied-date order and folded into per-month points; the catch branch calls
`redirect("/jobs")`. -/
def getChartsDataAction (userId : String) (now : Nat) (storageFails : Bool)
    (db : List Job) : ActionResult (List TrendPoint) :=
  let sixMonthsAgo := now - 6 * monthUnit
  if storageFails then .redirect "/jobs"
  else
    let jobs := sortByAppliedAsc (db.filter
      (fun j => j.clerkId == userId && sixMonthsAgo ≤ j.appliedDate))
    .ok (jobs.foldl addToTrend [])

/-- First-occurrence deduplication relative to a list of already-seen
elements: keeps the first occurrence of each element, in encounter order. -/
def firstSeen {α : Type} [DecidableEq α] (seen : List α) : List α → List α
  | [] => []
  | x :: xs => if x ∈ seen then firstSeen seen xs else x :: firstSeen (x :: seen) xs

/-- The distinct elements of a list in first-seen order. -/
def dedupFirstSeen {α : Type} [DecidableEq α] (l : List α) : List α :=
  firstSeen [] l

/-- Total count carried by the trend points with the given label. -/
def pointsSum (acc : List TrendPoint) (lbl : String) : Nat :=
  ((acc.filter (fun p => p.date == lbl)).map (fun p => p.count)).sum

/-- `getAllJobsForDownloadAction` (lines 389-406): every record of the
caller, applied date descending; a storage error yields `[]`. -/
def getAllJobsForDownloadAction (userId : String) (storageFails : Bool)
    (db : List Job) : List Job :=
  if storageFails then []
  else sortByAppliedDesc (db.filter (fun j => j.clerkId == userId))

/-! ## Export formatter (src/components/DownloadDropdown.tsx)

The CSV text and the Excel worksheet are both built row by row; we embed the
row sequence (CSV quoting and XLSX encoding are presentation only). The
report-generation timestamp `dayjs().format("DD-MMM-YYYY HH:mm")` is passed
in as the already-formatted string `generatedAt`. The source compares dayjs
`format("YYYY-MM")` strings to detect month changes; two timestamps produce
the same "YYYY-MM" string exactly when they fall in the same calendar month,
so the embedding compares `monthIdx` values, and the initial
`lastMonthKey = ""` (falsy, never equal to a real key) is `none`. -/

/-- Zero-padded two-digit day for dayjs "DD". -/
def twoDigits (n : Nat) : String := (if n < 10 then "0" else "") ++ toString n

/-- dayjs "YYYY": the year, zero-padded to at least four digits. -/
def fourDigitYear (y : Nat) : String :=
  if y < 10 then "000" ++ toString y
  else if y < 100 then "00" ++ toString y
  else if y < 1000 then "0" ++ toString y
  else toString y

/-- dayjs `format("DD-MMM-YYYY")` applied to a timestamp (day of month is
the within-month minute offset divided into 1440-minute days). -/
def formatDDMMMYYYY (t : Nat) : String :=
  twoDigits (t % monthUnit / 1440 + 1) ++ "-" ++ monthName (monthIdx t % 12)
    ++ "-" ++ fourDigitYear (monthIdx t / 12)

/-- Role mapping in `downloadAsCSV` (lines 117-122). -/
def csvRole (mode : String) : String :=
  if mode == "full-time" then "Full Time"
  else if mode == "part-time" then "Part Time"
  else "Internship"

/-- Role mapping in `downloadAsExcel` (lines 223-228), duplicated verbatim
from the CSV path in the source. -/
def excelRole (mode : String) : String :=
  if mode == "full-time" then "Full Time"
  else if mode == "part-time" then "Part Time"
  else "Internship"

/-- `status.charAt(0).toUpperCase() + status.slice(1)`. -/
def capitalizeStatus (s : String) : String :=
  match s.toList with
  | [] => ""
  | c :: rest => String.mk (c.toUpper :: rest)

/-- One row of the export output. -/
inductive CsvRow where
  | title (text : String)
  | summary (totalApplied declined interview pending : Nat) (generatedAt : String)
  | blank
  | header
  | data (serial : Nat)
      (appliedDate jobTitle company location role status : String)
deriving DecidableEq, Repr

/-- `[...jobs].sort((a, b) => b.createdAt - a.createdAt)`. -/
def sortByCreatedDesc (jobs : List Job) : List Job :=
  jobs.insertionSort (fun a b => b.createdAt ≤ a.createdAt)

/-- The CSV data row for one record (line 135): the "Applied Date" column is
`dayjs(job.createdAt).format("DD-MMM-YYYY")`. -/
def csvDataRow (serial : Nat) (j : Job) : CsvRow :=
  .data serial (formatDDMMMYYYY j.createdAt) j.position j.company j.location
    (csvRole j.mode) (capitalizeStatus j.status)

/-- The `sorted.forEach` loop of `downloadAsCSV` (lines 105-137), carrying
`lastMonthKey` and `serial` through the iteration and prepending a blank row
when the month key changes. -/
def csvLoop (lastMonthKey : Option Nat) (serial : Nat) : List Job → List CsvRow
  | [] => []
  | j :: rest =>
    let mk := monthIdx j.createdAt
    (match lastMonthKey with
     | some k => if k ≠ mk then [CsvRow.blank] else []
     | none => [])
    ++ (csvDataRow serial j :: csvLoop (some mk) (serial + 1) rest)

/-- The full row sequence of `downloadAsCSV` (lines 71-137): title row,
statistics-summary row (total plus counts of the legacy statuses "declined",
"interview", "pending"), one blank row, header row, then the data rows with
month-gap blanks. -/
def downloadAsCSVRows (jobs : List Job) (generatedAt : String) : List CsvRow :=
  let totalApplied := jobs.length
  let declined := (jobs.filter (fun j => j.status == "declined")).length
  let interview := (jobs.filter (fun j => j.status == "interview")).length
  let pending := (jobs.filter (fun j => j.status == "pending")).length
  CsvRow.title "Job Application History"
    :: CsvRow.summary totalApplied declined interview pending generatedAt
    :: CsvRow.blank
    :: CsvRow.header
    :: csvLoop none 1 (sortByCreatedDesc jobs)

/-- The Excel data row for one record (lines 238-246). -/
def excelDataRow (serial : Nat) (j : Job) : CsvRow :=
  .data serial (formatDDMMMYYYY j.createdAt) j.position j.company j.location
    (excelRole j.mode) (capitalizeStatus j.status)

/-- The `sorted.forEach` loop of `downloadAsExcel` (lines 220-248). -/
def excelLoop (lastMonthKey : Option Nat) (serial : Nat) : List Job → List CsvRow
  | [] => []
  | j :: rest =>
    let mk := monthIdx j.createdAt
    (match lastMonthKey with
     | some k => if k ≠ mk then [CsvRow.blank] else []
     | none => [])
    ++ (excelDataRow serial j :: excelLoop (some mk) (serial + 1) rest)

/-- The full row sequence of `downloadAsExcel` (lines 180-248), structurally
identical to the CSV rows. -/
def downloadAsExcelRows (jobs : List Job) (generatedAt : String) : List CsvRow :=
  let totalApplied := jobs.length
  let declined := (jobs.filter (fun j => j.status == "declined")).length
  let interview := (jobs.filter (fun j => j.status == "interview")).length
  let pending := (jobs.filter (fun j => j.status == "pending")).length
  CsvRow.title "Job Application History"
    :: CsvRow.summary totalApplied declined interview pending generatedAt
    :: CsvRow.blank
    :: CsvRow.header
    :: excelLoop none 1 (sortByCreatedDesc jobs)

/-- The numbers carried by a statistics-summary row. -/
def summaryNumbers : CsvRow → List Nat
  | .summary a b c d _ => [a, b, c, d]
  | _ => []

/-- Specification-side shape of the data-row section (spec §4.5): data rows
in order with consecutive serials, and exactly one blank row between two
consecutive data rows whose creation months differ — never before the
first data row, after the last, or inside a month group. Compared against
`csvLoop` for the refinement claim about month separators. -/
def monthSeparatedRows (serial : Nat) : List Job → List CsvRow
  | [] => []
  | [j] => [csvDataRow serial j]
  | j1 :: j2 :: rest =>
    csvDataRow serial j1
      :: ((if monthIdx j1.createdAt ≠ monthIdx j2.createdAt
           then [CsvRow.blank] else [])
          ++ monthSeparatedRows (serial + 1) (j2 :: rest))

/-- A sample record for concrete witnesses: owner, status, mode, applied
and created timestamps. -/
def mkJob (id owner status mode : String) (applied created : Nat) : Job :=
  { id := id, clerkId := owner
    position := "Engineer", company := "Acme", location := "Remote"
    status := status, mode := mode
    appliedDate := applied, lastContact := none, nextFollowUp := none
    salaryRange := none, jobUrl := none, website := none, resumeId := none
    coverLetterUrl := none, notes := none
    createdAt := created, updatedAt := created }

/-- A raw form input whose required fields are valid and whose optional
fields are all the empty string. -/
def rawAllEmptyOpt : RawJobInput :=
  { position := "Engineer", company := "Acme", location := "Remote"
    status := "applied", mode := "remote"
    salaryRange := some "", jobUrl := some "", website := some ""
    coverLetterUrl := some "", resumeId := some "", notes := some "" }

/-- The record produced by creating `rawAllEmptyOpt` as user "A". -/
def c1CreatedResult : ActionResult Job :=
  createJobAction (fun _ => true) (fun _ => true) "A" rawAllEmptyOpt false "new-id" 5

/-- The record produced by updating job "j1" of user "A" with
`rawAllEmptyOpt`. -/
def c1UpdatedResult : ActionResult Job :=
  updateJobAction (fun _ => true) (fun _ => true) "A" "j1" rawAllEmptyOpt false
    [mkJob "j1" "A" "applied" "remote" 3 3] 9

/-- A raw input whose position is `" a "`: raw length 3 passes the [2,200]
bound, but the trimmed value stored afterwards has length 1. -/
def c9Raw : RawJobInput :=
  { position := " a ", company := "Acme", location := "Remote"
    status := "applied", mode := "remote"
    salaryRange := none, jobUrl := none, website := none
    coverLetterUrl := none, resumeId := none, notes := none }

/-- The parsed payload of `rawAllEmptyOpt`. -/
def vAllEmptyOpt : CreateAndEditJob :=
  ⟨"Engineer", "Acme", "Remote", "applied", "remote",
   some "", some "", some "", some "", some "", some ""⟩

/-- Chart scenario: owner A has a record exactly 7 months before `now`
(excluded), one exactly at the 6-month boundary (included) and one the month
after; owner B has a record inside the window. -/
def c5Db : List Job :=
  [mkJob "old" "A" "applied" "remote" (13 * monthUnit + 100) 0,
   mkJob "boundary" "A" "applied" "remote" (14 * monthUnit + 100) 0,
   mkJob "late" "A" "applied" "remote" (15 * monthUnit) 0,
   mkJob "other" "B" "applied" "remote" (15 * monthUnit) 0]

/-- 25 records owned by "A": the concrete pagination scenario of the spec. -/
def db25 : List Job :=
  (List.range 25).map (fun i => mkJob (toString i) "A" "applied" "remote"
    (1000 + i) (1000 + i))

/-- Record set with statuses [offer, offer, applied]: the status "offer"
occurs twice, a count that appears nowhere in the export summary row. -/
def c8Jobs : List Job :=
  [mkJob "1" "A" "offer" "remote" 1 1,
   mkJob "2" "A" "offer" "remote" 2 2,
   mkJob "3" "A" "applied" "remote" 3 3]

/-! ## Validation-layer lemmas -/

theorem parseRequiredText_ok {field lo hi m1 m2 s v}
    (h : parseRequiredText field lo hi m1 m2 s = .ok v) :
    v = jsTrim s ∧ lo ≤ s.length ∧ s.length ≤ hi := by
  unfold parseRequiredText at h
  split at h
  · exact absurd h (by simp)
  · split at h
    · exact absurd h (by simp)
    · exact ⟨by simpa using h.symm, by omega, by omega⟩

theorem parseEnum_ok {field values msg s v}
    (h : parseEnum field values msg s = .ok v) :
    v = s ∧ s ∈ values := by
  unfold parseEnum at h
  split at h
  · next hc => exact ⟨by simpa using h.symm, by simpa using hc⟩
  · exact absurd h (by simp)

theorem parseOptTrimmed_ok {field hi msg o v}
    (h : parseOptTrimmed field hi msg o = .ok v) :
    v = o.map jsTrim := by
  cases o with
  | none => simpa [parseOptTrimmed] using (by simpa [parseOptTrimmed] using h : (none : Option String) = v).symm
  | some s =>
    simp only [parseOptTrimmed] at h
    split at h
    · simpa using ((by simpa using h : some (jsTrim s) = v)).symm
    · split at h
      · next hlen hemp =>
        exfalso
        have hs : s = "" := by simpa using hemp
        subst hs
        simp at hlen
      · exact absurd h (by simp)

theorem parseOptUrl_ok {field u o v}
    (h : parseOptUrl field u o = .ok v) : v = o := by
  cases o with
  | none => simpa using (by simpa [parseOptUrl] using h : (none : Option String) = v).symm
  | some s =>
    simp only [parseOptUrl] at h
    split at h
    · exact (by simpa using h : some s = v).symm
    · split at h
      · next hemp =>
        have hs : s = "" := by simpa using hemp
        subst hs
        exact (by simpa using h : some "" = v).symm
      · split at h
        · exact absurd h (by simp)
        · exact absurd h (by simp)

theorem parseOptUuid_ok {field g o v}
    (h : parseOptUuid field g o = .ok v) : v = o := by
  cases o with
  | none => simpa using (by simpa [parseOptUuid] using h : (none : Option String) = v).symm
  | some s =>
    simp only [parseOptUuid] at h
    split at h
    · exact (by simpa using h : some s = v).symm
    · split at h
      · next hemp =>
        have hs : s = "" := by simpa using hemp
        subst hs
        exact (by simpa using h : some "" = v).symm
      · exact absurd h (by simp)

/-- Inversion of a successful `createAndEditJobSchema.parse`: every field of
the parsed payload in terms of the raw input, plus the length and enum
constraints the raw input must satisfy. -/
theorem createAndEditJobSchemaParse_ok {u g : String → Bool} {raw : RawJobInput}
    {v : CreateAndEditJob}
    (h : createAndEditJobSchemaParse u g raw = .ok v) :
    v.position = jsTrim raw.position ∧ 2 ≤ raw.position.length ∧ raw.position.length ≤ 200 ∧
    v.company = jsTrim raw.company ∧ 2 ≤ raw.company.length ∧ raw.company.length ≤ 200 ∧
    v.location = jsTrim raw.location ∧ 2 ≤ raw.location.length ∧ raw.location.length ≤ 200 ∧
    v.status = raw.status ∧ raw.status ∈ jobStatusValues ∧
    v.mode = raw.mode ∧ raw.mode ∈ jobModeValues ∧
    v.salaryRange = raw.salaryRange.map jsTrim ∧
    v.jobUrl = raw.jobUrl ∧
    v.website = raw.website ∧
    v.coverLetterUrl = raw.coverLetterUrl ∧
    v.resumeId = raw.resumeId ∧
    v.notes = raw.notes.map jsTrim := by
  unfold createAndEditJobSchemaParse at h
  cases h1 : parseRequiredText "position" 2 200
      "Position must be at least 2 characters"
      "Position must not exceed 200 characters" raw.position with
  | error e => simp [h1, bind, Except.bind] at h
  | ok p =>
  simp only [h1, bind, Except.bind] at h
  cases h2 : parseRequiredText "company" 2 200
      "Company must be at least 2 characters"
      "Company must not exceed 200 characters" raw.company with
  | error e => simp [h2] at h
  | ok c =>
  simp only [h2] at h
  cases h3 : parseRequiredText "location" 2 200
      "Location must be at least 2 characters"
      "Location must not exceed 200 characters" raw.location with
  | error e => simp [h3] at h
  | ok l =>
  simp only [h3] at h
  cases h4 : parseEnum "status" jobStatusValues
      "Please select a valid status" raw.status with
  | error e => simp [h4] at h
  | ok st =>
  simp only [h4] at h
  cases h5 : parseEnum "mode" jobModeValues
      "Please select a valid employment type" raw.mode with
  | error e => simp [h5] at h
  | ok mo =>
  simp only [h5] at h
  cases h6 : parseOptTrimmed "salaryRange" 100
      "Salary range must not exceed 100 characters" raw.salaryRange with
  | error e => simp [h6] at h
  | ok sr =>
  simp only [h6] at h
  cases h7 : parseOptUrl "jobUrl" u raw.jobUrl with
  | error e => simp [h7] at h
  | ok ju =>
  simp only [h7] at h
  cases h8 : parseOptUrl "website" u raw.website with
  | error e => simp [h8] at h
  | ok w =>
  simp only [h8] at h
  cases h9 : parseOptUrl "coverLetterUrl" u raw.coverLetterUrl with
  | error e => simp [h9] at h
  | ok cl =>
  simp only [h9] at h
  cases h10 : parseOptUuid "resumeId" g raw.resumeId with
  | error e => simp [h10] at h
  | ok ri =>
  simp only [h10] at h
  cases h11 : parseOptTrimmed "notes" 5000
      "Notes must not exceed 5000 characters" raw.notes with
  | error e => simp [h11] at h
  | ok no =>
  simp only [h11, pure, Except.pure, Except.ok.injEq] at h
  obtain ⟨hp1, hp2, hp3⟩ := parseRequiredText_ok h1
  obtain ⟨hc1, hc2, hc3⟩ := parseRequiredText_ok h2
  obtain ⟨hl1, hl2, hl3⟩ := parseRequiredText_ok h3
  obtain ⟨hst1, hst2⟩ := parseEnum_ok h4
  obtain ⟨hmo1, hmo2⟩ := parseEnum_ok h5
  subst h
  exact ⟨hp1, hp2, hp3, hc1, hc2, hc3, hl1, hl2, hl3,
    hst1 ▸ rfl, hst2, hmo1 ▸ rfl, hmo2,
    parseOptTrimmed_ok h6, parseOptUrl_ok h7, parseOptUrl_ok h8,
    parseOptUrl_ok h9, parseOptUuid_ok h10, parseOptTrimmed_ok h11⟩

/-- After a successful parse, sanitization turns every optional field that
was submitted as the empty string into `none`. -/
theorem sanitize_of_parse_empty {u g : String → Bool} {raw : RawJobInput}
    {v : CreateAndEditJob}
    (h : createAndEditJobSchemaParse u g raw = .ok v) :
    (raw.salaryRange = some "" → (sanitizeJobInput v).salaryRange = none) ∧
    (raw.jobUrl = some "" → (sanitizeJobInput v).jobUrl = none) ∧
    (raw.website = some "" → (sanitizeJobInput v).website = none) ∧
    (raw.coverLetterUrl = some "" → (sanitizeJobInput v).coverLetterUrl = none) ∧
    (raw.resumeId = some "" → (sanitizeJobInput v).resumeId = none) ∧
    (raw.notes = some "" → (sanitizeJobInput v).notes = none) := by
  obtain ⟨-, -, -, -, -, -, -, -, -, -, -, -, -, hsr, hju, hw, hcl, hri, hno⟩ :=
    createAndEditJobSchemaParse_ok h
  refine ⟨fun he => ?_, fun he => ?_, fun he => ?_, fun he => ?_,
    fun he => ?_, fun he => ?_⟩
  · simp only [sanitizeJobInput]; rw [hsr, he]; decide
  · simp only [sanitizeJobInput]; rw [hju, he]; decide
  · simp only [sanitizeJobInput]; rw [hw, he]; decide
  · simp only [sanitizeJobInput]; rw [hcl, he]; decide
  · simp only [sanitizeJobInput]; rw [hri, he]; decide
  · simp only [sanitizeJobInput]; rw [hno, he]; decide

/-- C1: for every optional field (salaryRange, jobUrl, website,
coverLetterUrl, resumeId, notes), a record accepted with that field equal to
the empty string is stored with the field absent (`none`), on both the
create path (`createJobAction`) and the update path (`updateJobAction`) —
sanitization runs unconditionally after successful validation on both. -/
theorem emptyOptionalsStoredAbsent
    (u g : String → Bool) (userId id newId : String) (raw : RawJobInput)
    (db : List Job) (now : Nat) (j j2 : Job) :
    (createJobAction u g userId raw false newId now = .ok j →
      ((raw.salaryRange = some "" → j.salaryRange = none) ∧
       (raw.jobUrl = some "" → j.jobUrl = none) ∧
       (raw.website = some "" → j.website = none) ∧
       (raw.coverLetterUrl = some "" → j.coverLetterUrl = none) ∧
       (raw.resumeId = some "" → j.resumeId = none) ∧
       (raw.notes = some "" → j.notes = none))) ∧
    (updateJobAction u g userId id raw false db now = .ok j2 →
      ((raw.salaryRange = some "" → j2.salaryRange = none) ∧
       (raw.jobUrl = some "" → j2.jobUrl = none) ∧
       (raw.website = some "" → j2.website = none) ∧
       (raw.coverLetterUrl = some "" → j2.coverLetterUrl = none) ∧
       (raw.resumeId = some "" → j2.resumeId = none) ∧
       (raw.notes = some "" → j2.notes = none))) := by
  constructor
  · intro h
    unfold createJobAction at h
    cases hp : createAndEditJobSchemaParse u g raw with
    | error e => rw [hp] at h; exact absurd h (by simp)
    | ok validated =>
      rw [hp] at h
      simp only [Bool.false_eq_true, if_false, ActionResult.ok.injEq] at h
      obtain ⟨s1, s2, s3, s4, s5, s6⟩ := sanitize_of_parse_empty hp
      subst h
      exact ⟨s1, s2, s3, s4, s5, s6⟩
  · intro h
    unfold updateJobAction at h
    cases hp : createAndEditJobSchemaParse u g raw with
    | error e => rw [hp] at h; exact absurd h (by simp)
    | ok validated =>
      rw [hp] at h
      simp only [Bool.false_eq_true, if_false] at h
      cases hf : findOwned userId id db with
      | none => rw [hf] at h; exact absurd h (by simp)
      | some j0 =>
        rw [hf] at h
        simp only [ActionResult.ok.injEq] at h
        obtain ⟨s1, s2, s3, s4, s5, s6⟩ := sanitize_of_parse_empty hp
        subst h
        exact ⟨s1, s2, s3, s4, s5, s6⟩

/-- Witness for C1 at a concrete input: all six optional fields submitted as
the empty string come back absent from both paths. -/
theorem emptyOptionalsStoredAbsent_witness :
    (∀ j, c1CreatedResult = .ok j →
      j.salaryRange = none ∧ j.jobUrl = none ∧ j.website = none ∧
      j.coverLetterUrl = none ∧ j.resumeId = none ∧ j.notes = none) ∧
    (∀ j2, c1UpdatedResult = .ok j2 →
      j2.salaryRange = none ∧ j2.jobUrl = none ∧ j2.website = none ∧
      j2.coverLetterUrl = none ∧ j2.resumeId = none ∧ j2.notes = none) ∧
    (∃ j, c1CreatedResult = .ok j) ∧ (∃ j2, c1UpdatedResult = .ok j2) := by
  refine ⟨fun j h => ?_, fun j2 h => ?_, ?_, ?_⟩
  · obtain ⟨c, -⟩ := emptyOptionalsStoredAbsent (fun _ => true) (fun _ => true)
      "A" "j1" "new-id" rawAllEmptyOpt [] 5 j j
    obtain ⟨a1, a2, a3, a4, a5, a6⟩ := c h
    exact ⟨a1 rfl, a2 rfl, a3 rfl, a4 rfl, a5 rfl, a6 rfl⟩
  · obtain ⟨-, up⟩ := emptyOptionalsStoredAbsent (fun _ => true) (fun _ => true)
      "A" "j1" "new-id" rawAllEmptyOpt [mkJob "j1" "A" "applied" "remote" 3 3] 9 j2 j2
    obtain ⟨a1, a2, a3, a4, a5, a6⟩ := up h
    exact ⟨a1 rfl, a2 rfl, a3 rfl, a4 rfl, a5 rfl, a6 rfl⟩
  · exact ⟨_, rfl⟩
  · exact ⟨_, rfl⟩

/-- C10: in both export encodings the Role column maps mode "full-time" to
"Full Time", "part-time" to "Part Time", and every other mode — including
the enum values "contract", "remote" and "hybrid" — to "Internship". -/
theorem exportRoleMapping (m : String) :
    (m ≠ "full-time" → m ≠ "part-time" →
      csvRole m = "Internship" ∧ excelRole m = "Internship") ∧
    csvRole "full-time" = "Full Time" ∧ excelRole "full-time" = "Full Time" ∧
    csvRole "part-time" = "Part Time" ∧ excelRole "part-time" = "Part Time" ∧
    csvRole "contract" = "Internship" ∧ excelRole "contract" = "Internship" ∧
    csvRole "remote" = "Internship" ∧ excelRole "remote" = "Internship" ∧
    csvRole "hybrid" = "Internship" ∧ excelRole "hybrid" = "Internship" := by
  refine ⟨fun h1 h2 => ?_, by decide, by decide, by decide, by decide, by decide,
    by decide, by decide, by decide, by decide, by decide⟩
  constructor <;> simp [csvRole, excelRole, h1, h2]

/-- Witness for C10 at the enum mode "remote". -/
theorem exportRoleMapping_witness :
    csvRole "remote" = "Internship" ∧ excelRole "remote" = "Internship" :=
  (exportRoleMapping "remote").1 (by decide) (by decide)

/-- C7 counterexample: on a storage error the aggregate operations do not
return a zeroed result — they redirect to "/jobs". -/
theorem storageErrorAggregates_counterexample :
    getStatsAction "A" true [] = .redirect "/jobs" ∧
    getStatsAction "A" true [] ≠ .ok ⟨0, 0, 0, 0, 0⟩ ∧
    getChartsDataAction "A" 0 true [] = .redirect "/jobs" ∧
    getChartsDataAction "A" 0 true [] ≠ .ok [] := by
  refine ⟨rfl, ?_, rfl, ?_⟩ <;> decide

/-- C7 amended: storage errors are downgraded to `null` for
create/update/delete and to empty results for the list reads, but the
aggregate operations (`getStatsAction`, `getChartsDataAction`) and
`getSingleJobAction` respond to a storage error by redirecting to "/jobs"
(an internal control-flow exception), not by returning a zeroed result. -/
theorem storageErrorPolicy (u g : String → Bool) (userId id newId : String)
    (raw : RawJobInput) (db : List Job) (now page limit : Nat)
    (search jobStatus : Option String) :
    createJobAction u g userId raw true newId now = .nullResult ∧
    updateJobAction u g userId id raw true db now = .nullResult ∧
    deleteJobAction userId id true db = .nullResult ∧
    getAllJobsAction userId search jobStatus page limit true db =
      ⟨[], 0, 1, 0⟩ ∧
    getAllJobsForDownloadAction userId true db = [] ∧
    getStatsAction userId true db = .redirect "/jobs" ∧
    getChartsDataAction userId now true db = .redirect "/jobs" ∧
    getSingleJobAction userId id true db = .redirect "/jobs" := by
  refine ⟨?_, ?_, rfl, rfl, rfl, rfl, rfl, rfl⟩
  · unfold createJobAction
    cases createAndEditJobSchemaParse u g raw <;> simp
  · unfold updateJobAction
    cases createAndEditJobSchemaParse u g raw <;> simp

/-- C8 counterexample: with statuses [offer, offer, applied] the summary row
is `Total Applied: 3, Declined: 0, Interview: 0, Pending: 0`; the count of
the status "offer" (2) appears nowhere in it, refuting the claim that every
status's count appears in the summary row. -/
theorem summaryRow_counterexample :
    (downloadAsCSVRows c8Jobs "TS").get? 1 = some (.summary 3 0 0 0 "TS") ∧
    (downloadAsExcelRows c8Jobs "TS").get? 1 = some (.summary 3 0 0 0 "TS") ∧
    (c8Jobs.filter (fun j => j.status == "offer")).length = 2 ∧
    "offer" ∈ jobStatusValues ∧
    ¬ (∀ s ∈ jobStatusValues,
        (c8Jobs.filter (fun j => j.status == s)).length ∈
          summaryNumbers (.summary 3 0 0 0 "TS")) := by
  refine ⟨rfl, rfl, by decide, by decide, ?_⟩
  decide

/-- C8 amended: in both encodings the statistics-summary row carries the
total number of exported records together with the counts of records whose
status is the legacy value "declined", "interview" or "pending", plus the
generation timestamp — not the counts of the five current enum statuses. -/
theorem summaryRowContents (jobs : List Job) (g : String) :
    (downloadAsCSVRows jobs g).get? 1 = some (.summary jobs.length
      (jobs.filter (fun j => j.status == "declined")).length
      (jobs.filter (fun j => j.status == "interview")).length
      (jobs.filter (fun j => j.status == "pending")).length g) ∧
    (downloadAsExcelRows jobs g).get? 1 = some (.summary jobs.length
      (jobs.filter (fun j => j.status == "declined")).length
      (jobs.filter (fun j => j.status == "interview")).length
      (jobs.filter (fun j => j.status == "pending")).length g) :=
  ⟨rfl, rfl⟩

/-! ## Statistics aggregator lemmas -/

theorem find?_fst_map_pair (l : List String) (f : String → Nat) (s : String) :
    (l.map (fun x => (x, f x))).find? (fun p => p.1 == s) =
      (l.find? (fun x => x == s)).map (fun x => (x, f x)) := by
  induction l with
  | nil => rfl
  | cons a t ih =>
    by_cases h : (a == s) = true
    · simp [List.find?, h]
    · simp only [List.map_cons, List.find?]
      rw [show ((a, f a).1 == s) = false from by simpa using h]
      exact ih

/-- The grouped-and-merged lookup equals a direct count of records in the
given status. -/
theorem statsLookup_statusGroups (records : List Job) (s : String) :
    statsLookup (statusGroups records) s =
      records.countP (fun j => j.status == s) := by
  unfold statsLookup statusGroups
  rw [find?_fst_map_pair]
  cases hf : (records.map (fun j => j.status)).dedup.find? (fun x => x == s) with
  | none =>
    rw [List.find?_eq_none] at hf
    simp only [Option.map_none']
    symm
    rw [List.countP_eq_zero]
    intro j hj hsj
    have hjs : j.status = s := by simpa using hsj
    exact hf s (by rw [List.mem_dedup]; exact hjs ▸ List.mem_map_of_mem _ hj)
      (by simp)
  | some x =>
    have hx : x = s := by simpa using List.find?_some hf
    subst hx
    simp

/-- C4: `getStatsAction` returns all five statuses, each mapped to the
number of the owner's records in that status (zero when absent); on zero
records all five counts are zero, and on statuses [applied, applied, offer]
the result is {applied: 2, screening: 0, interview: 0, offer: 1,
rejected: 0}. -/
theorem statsCountsByStatus (userId : String) (db : List Job) :
    (getStatsAction userId false db = .ok
      ⟨(db.filter (fun j => j.clerkId == userId)).countP (fun j => j.status == "applied"),
       (db.filter (fun j => j.clerkId == userId)).countP (fun j => j.status == "screening"),
       (db.filter (fun j => j.clerkId == userId)).countP (fun j => j.status == "interview"),
       (db.filter (fun j => j.clerkId == userId)).countP (fun j => j.status == "offer"),
       (db.filter (fun j => j.clerkId == userId)).countP (fun j => j.status == "rejected")⟩) ∧
    getStatsAction userId false [] = .ok ⟨0, 0, 0, 0, 0⟩ ∧
    getStatsAction "A" false
      [mkJob "1" "A" "applied" "remote" 1 1,
       mkJob "2" "A" "applied" "remote" 2 2,
       mkJob "3" "A" "offer" "remote" 3 3] = .ok ⟨2, 0, 0, 1, 0⟩ := by
  refine ⟨?_, rfl, by decide⟩
  unfold getStatsAction
  simp only [Bool.false_eq_true, if_false, ActionResult.ok.injEq]
  rw [statsLookup_statusGroups, statsLookup_statusGroups,
    statsLookup_statusGroups, statsLookup_statusGroups,
    statsLookup_statusGroups]

/-! ## Cross-owner isolation -/

/-- Every job in a `getAllJobsAction` result page belongs to the caller. -/
theorem mem_jobs_clerkId (userId : String) (search jobStatus : Option String)
    (page limit : Nat) (db : List Job) (j : Job)
    (hj : j ∈ (getAllJobsAction userId search jobStatus page limit false db).jobs) :
    j.clerkId = userId := by
  unfold getAllJobsAction at hj
  simp only [Bool.false_eq_true, if_false] at hj
  have h1 : j ∈ sortByAppliedDesc (db.filter (matchesWhere userId search jobStatus)) :=
    List.mem_of_mem_drop (List.mem_of_mem_take hj)
  have h2 : j ∈ db.filter (matchesWhere userId search jobStatus) :=
    (List.perm_insertionSort _ _).mem_iff.mp h1
  have h3 := (List.mem_filter.mp h2).2
  unfold matchesWhere at h3
  simp only [Bool.and_eq_true, beq_iff_eq] at h3
  exact h3.1.1

/-- C3: list never returns another owner's record, and `getSingleJobAction`
called by A on an id owned by B produces exactly the same not-found outcome
(a redirect to "/jobs") as on an id that matches no record at all. -/
theorem crossOwnerIsolation
    (A B idB freshId : String) (db : List Job)
    (search jobStatus : Option String) (page limit : Nat)
    (hAB : A ≠ B)
    (hidB : ∀ j ∈ db, j.id = idB → j.clerkId = B)
    (hfresh : ∀ j ∈ db, j.id ≠ freshId) :
    (∀ j ∈ (getAllJobsAction A search jobStatus page limit false db).jobs,
      j.clerkId ≠ B) ∧
    getSingleJobAction A idB false db = .redirect "/jobs" ∧
    getSingleJobAction A freshId false db = .redirect "/jobs" ∧
    getSingleJobAction A idB false db = getSingleJobAction A freshId false db := by
  have hB : getSingleJobAction A idB false db = .redirect "/jobs" := by
    unfold getSingleJobAction findOwned
    simp only [Bool.false_eq_true, if_false]
    rw [show db.find? (fun j => j.id == idB && j.clerkId == A) = none from ?_]
    rw [List.find?_eq_none]
    intro j hj hcontra
    simp only [Bool.and_eq_true, beq_iff_eq] at hcontra
    exact hAB ((hidB j hj hcontra.1 ▸ hcontra.2).symm ▸ rfl)
  have hF : getSingleJobAction A freshId false db = .redirect "/jobs" := by
    unfold getSingleJobAction findOwned
    simp only [Bool.false_eq_true, if_false]
    rw [show db.find? (fun j => j.id == freshId && j.clerkId == A) = none from ?_]
    rw [List.find?_eq_none]
    intro j hj hcontra
    simp only [Bool.and_eq_true, beq_iff_eq] at hcontra
    exact hfresh j hj hcontra.1
  exact ⟨fun j hj hB2 =>
      hAB ((mem_jobs_clerkId A search jobStatus page limit db j hj).symm.trans hB2),
    hB, hF, hB.trans hF.symm⟩

/-! ## Pagination arithmetic -/

/-- `Math.ceil(c / l)` covers all `c` matching records. -/
theorem le_jsCeilDiv_mul (c l : Nat) (hl : 0 < l) : c ≤ jsCeilDiv c l * l := by
  unfold jsCeilDiv
  have hd := Nat.div_add_mod (c + l - 1) l
  have hm : (c + l - 1) % l < l := Nat.mod_lt _ hl
  rw [Nat.mul_comm]
  generalize l * ((c + l - 1) / l) = X at hd ⊢
  omega

/-- `Math.ceil(c / l)` is the least page count whose pages cover `c`. -/
theorem jsCeilDiv_le_of_le_mul (c l n : Nat) (hl : 0 < l) (h : c ≤ n * l) :
    jsCeilDiv c l ≤ n := by
  unfold jsCeilDiv
  rw [← Nat.lt_succ_iff, Nat.div_lt_iff_lt_mul hl, Nat.succ_mul]
  generalize n * l = X at h ⊢
  omega

/-- C2: on the success path, `count` is the number of matching records
ignoring pagination, `page` is echoed, `jobs` is the slice of the
applied-date-descending ordering of the matching records starting at offset
`(page-1)*limit` of length at most `limit`, that ordering is sorted by
applied date descending and is a permutation of the matching records, and
`totalPages` is exactly `ceil(count / limit)` (characterized as the least
page count covering all matches). -/
theorem listPaginationCorrect (userId : String) (search jobStatus : Option String)
    (page limit : Nat) (db : List Job) (hl : 0 < limit) :
    (getAllJobsAction userId search jobStatus page limit false db).count =
      (db.filter (matchesWhere userId search jobStatus)).length ∧
    (getAllJobsAction userId search jobStatus page limit false db).page = page ∧
    (getAllJobsAction userId search jobStatus page limit false db).jobs =
      ((sortByAppliedDesc (db.filter (matchesWhere userId search jobStatus))).drop
        ((page - 1) * limit)).take limit ∧
    (getAllJobsAction userId search jobStatus page limit false db).jobs.length ≤
      limit ∧
    List.Pairwise (fun a b => b.appliedDate ≤ a.appliedDate)
      (sortByAppliedDesc (db.filter (matchesWhere userId search jobStatus))) ∧
    (sortByAppliedDesc (db.filter (matchesWhere userId search jobStatus))).Perm
      (db.filter (matchesWhere userId search jobStatus)) ∧
    (getAllJobsAction userId search jobStatus page limit false db).count ≤
      (getAllJobsAction userId search jobStatus page limit false db).totalPages *
        limit ∧
    (∀ n, (getAllJobsAction userId search jobStatus page limit false db).count ≤
        n * limit →
      (getAllJobsAction userId search jobStatus page limit false db).totalPages ≤ n) := by
  refine ⟨rfl, rfl, rfl, ?_, ?_, List.perm_insertionSort _ _, ?_, ?_⟩
  · exact List.length_take_le _ _
  · letI : IsTotal Job (fun a b => b.appliedDate ≤ a.appliedDate) :=
      ⟨fun a b => Nat.le_total b.appliedDate a.appliedDate⟩
    letI : IsTrans Job (fun a b => b.appliedDate ≤ a.appliedDate) :=
      ⟨fun _ _ _ h1 h2 => Nat.le_trans h2 h1⟩
    exact List.sorted_insertionSort _ _
  · exact le_jsCeilDiv_mul _ _ hl
  · exact fun n hn => jsCeilDiv_le_of_le_mul _ _ n hl hn

/-- Witness for C2: 25 matching records, page 1, limit 10 yields 10 jobs,
totalPages 3, count 25, page echoed. -/
theorem listPaginationCorrect_witness :
    (getAllJobsAction "A" none none 1 10 false db25).page = 1 ∧
    (getAllJobsAction "A" none none 1 10 false db25).jobs.length = 10 ∧
    (getAllJobsAction "A" none none 1 10 false db25).totalPages = 3 ∧
    (getAllJobsAction "A" none none 1 10 false db25).count = 25 :=
  ⟨(listPaginationCorrect "A" none none 1 10 db25 (by decide)).2.1,
   by decide, by decide, by decide⟩

/-- Witness for C3: a database holding only B's record, queried as A. -/
theorem crossOwnerIsolation_witness :
    getSingleJobAction "A" "b1" false [mkJob "b1" "B" "applied" "remote" 1 1] =
      .redirect "/jobs" ∧
    getSingleJobAction "A" "b1" false [mkJob "b1" "B" "applied" "remote" 1 1] =
      getSingleJobAction "A" "nonexistent" false
        [mkJob "b1" "B" "applied" "remote" 1 1] ∧
    (getAllJobsAction "A" none none 1 10 false
      [mkJob "b1" "B" "applied" "remote" 1 1]).jobs = [] := by
  have h := crossOwnerIsolation "A" "B" "b1" "nonexistent"
    [mkJob "b1" "B" "applied" "remote" 1 1] none none 1 10
    (by decide) (by decide) (by decide)
  exact ⟨h.2.1, h.2.2.2, by decide⟩

/-! ## Required-text length bounds (C9) -/

/-- C9 counterexample: the input `" a "` (raw length 3) is accepted, but the
sanitized position is the trimmed string `"a"` of length 1 — outside
[2, 200] — so the accepted record's position is not a trimmed string of
length in [2, 200], and an input whose trimmed value falls outside the range
was not rejected. -/
theorem requiredTextBounds_counterexample :
    createAndEditJobSchemaParse (fun _ => true) (fun _ => true) c9Raw =
      .ok ⟨"a", "Acme", "Remote", "applied", "remote",
           none, none, none, none, none, none⟩ ∧
    (jsTrim " a ").length = 1 ∧
    (sanitizeJobInput ⟨"a", "Acme", "Remote", "applied", "remote",
      none, none, none, none, none, none⟩).position.length < 2 := by
  refine ⟨rfl, by decide, by decide⟩

/-- C9 amended: the [2, 200] length bounds on position, company and location
are enforced on the raw input before trimming; on acceptance each field is
the trimmed raw value (so its length can drop below 2), and a raw value with
length outside [2, 200] is rejected with a field-level error naming the
field. -/
theorem requiredTextBoundsAmended (u g : String → Bool) (raw : RawJobInput)
    (v : CreateAndEditJob) :
    (createAndEditJobSchemaParse u g raw = .ok v →
      v.position = jsTrim raw.position ∧ v.company = jsTrim raw.company ∧
      v.location = jsTrim raw.location ∧
      2 ≤ raw.position.length ∧ raw.position.length ≤ 200 ∧
      2 ≤ raw.company.length ∧ raw.company.length ≤ 200 ∧
      2 ≤ raw.location.length ∧ raw.location.length ≤ 200) ∧
    (raw.position.length < 2 →
      createAndEditJobSchemaParse u g raw =
        .error ⟨"position", "Position must be at least 2 characters"⟩) ∧
    (200 < raw.position.length →
      createAndEditJobSchemaParse u g raw =
        .error ⟨"position", "Position must not exceed 200 characters"⟩) := by
  refine ⟨fun h => ?_, fun hlt => ?_, fun hgt => ?_⟩
  · obtain ⟨hp, hp2, hp3, hc, hc2, hc3, hloc, hl2, hl3, -⟩ :=
      createAndEditJobSchemaParse_ok h
    exact ⟨hp, hc, hloc, hp2, hp3, hc2, hc3, hl2, hl3⟩
  · unfold createAndEditJobSchemaParse
    rw [show parseRequiredText "position" 2 200
        "Position must be at least 2 characters"
        "Position must not exceed 200 characters" raw.position =
        .error ⟨"position", "Position must be at least 2 characters"⟩ from by
      unfold parseRequiredText; rw [if_pos hlt]]
    rfl
  · unfold createAndEditJobSchemaParse
    rw [show parseRequiredText "position" 2 200
        "Position must be at least 2 characters"
        "Position must not exceed 200 characters" raw.position =
        .error ⟨"position", "Position must not exceed 200 characters"⟩ from by
      unfold parseRequiredText
      rw [if_neg (by omega), if_pos hgt]]
    rfl

/-- Witness for the amended C9 at concrete inputs: an accepted payload with
its raw bounds, and a one-character position rejected naming "position". -/
theorem requiredTextBoundsAmended_witness :
    vAllEmptyOpt.position = jsTrim "Engineer" ∧
    2 ≤ ("Engineer" : String).length ∧
    createAndEditJobSchemaParse (fun _ => true) (fun _ => true)
      { rawAllEmptyOpt with position := "x" } =
      .error ⟨"position", "Position must be at least 2 characters"⟩ := by
  obtain ⟨hp, -, -, hge, -⟩ :=
    (requiredTextBoundsAmended (fun _ => true) (fun _ => true)
      rawAllEmptyOpt vAllEmptyOpt).1 rfl
  exact ⟨hp, hge,
    (requiredTextBoundsAmended (fun _ => true) (fun _ => true)
      { rawAllEmptyOpt with position := "x" } vAllEmptyOpt).2.1 (by decide)⟩

/-! ## Export month separators (C6) -/

theorem csvLoop_some_eq (l : List Job) :
    ∀ (s k : Nat),
      csvLoop (some k) s l =
        (match l with
         | [] => []
         | j :: _ => if k ≠ monthIdx j.createdAt then [CsvRow.blank] else [])
        ++ monthSeparatedRows s l := by
  induction l with
  | nil => intro s k; rfl
  | cons j rest ih =>
    intro s k
    show (if k ≠ monthIdx j.createdAt then [CsvRow.blank] else []) ++
        (csvDataRow s j :: csvLoop (some (monthIdx j.createdAt)) (s + 1) rest) = _
    congr 1
    cases rest with
    | nil => rfl
    | cons j2 t =>
      rw [ih (s + 1) (monthIdx j.createdAt)]
      rfl

theorem csvLoop_none_eq (l : List Job) (s : Nat) :
    csvLoop none s l = monthSeparatedRows s l := by
  cases l with
  | nil => rfl
  | cons j rest =>
    show csvDataRow s j :: csvLoop (some (monthIdx j.createdAt)) (s + 1) rest = _
    cases rest with
    | nil => rfl
    | cons j2 t =>
      rw [csvLoop_some_eq]
      rfl

/-- C6: the CSV data section lists the records sorted by creation timestamp
descending (newest first), with data rows carrying consecutive serial
numbers from 1, and exactly one blank separator row between two consecutive
data rows whose creation months differ — none before the first data row,
after the last, or inside a month group (`monthSeparatedRows` encodes
exactly that shape). -/
theorem exportMonthSeparators (jobs : List Job) (g : String) :
    downloadAsCSVRows jobs g =
      CsvRow.title "Job Application History"
        :: CsvRow.summary jobs.length
            (jobs.filter (fun j => j.status == "declined")).length
            (jobs.filter (fun j => j.status == "interview")).length
            (jobs.filter (fun j => j.status == "pending")).length g
        :: CsvRow.blank
        :: CsvRow.header
        :: monthSeparatedRows 1 (sortByCreatedDesc jobs) ∧
    List.Pairwise (fun a b => b.createdAt ≤ a.createdAt)
      (sortByCreatedDesc jobs) ∧
    (sortByCreatedDesc jobs).Perm jobs := by
  refine ⟨?_, ?_, List.perm_insertionSort _ _⟩
  · unfold downloadAsCSVRows
    rw [csvLoop_none_eq]
  · letI : IsTotal Job (fun a b => b.createdAt ≤ a.createdAt) :=
      ⟨fun a b => Nat.le_total b.createdAt a.createdAt⟩
    letI : IsTrans Job (fun a b => b.createdAt ≤ a.createdAt) :=
      ⟨fun _ _ _ h1 h2 => Nat.le_trans h2 h1⟩
    exact List.sorted_insertionSort _ _

/-! ## Monthly trend lemmas (C5) -/

theorem bumpFirst_map_date (acc : List TrendPoint) (d : String) :
    (addToTrend.bumpFirst acc d).map (fun p => p.date) =
      acc.map (fun p => p.date) := by
  induction acc with
  | nil => rfl
  | cons e rest ih =>
    unfold addToTrend.bumpFirst
    split
    · rfl
    · simpa using ih

theorem any_date_iff (acc : List TrendPoint) (lbl : String) :
    acc.any (fun e => e.date == lbl) = true ↔
      lbl ∈ acc.map (fun p => p.date) := by
  simp only [List.any_eq_true, beq_iff_eq, List.mem_map]

theorem addToTrend_map_date (acc : List TrendPoint) (j : Job) :
    (addToTrend acc j).map (fun p => p.date) =
      if monthLabel j.appliedDate ∈ acc.map (fun p => p.date)
      then acc.map (fun p => p.date)
      else acc.map (fun p => p.date) ++ [monthLabel j.appliedDate] := by
  unfold addToTrend
  by_cases h : monthLabel j.appliedDate ∈ acc.map (fun p => p.date)
  · rw [if_pos ((any_date_iff acc _).mpr h), if_pos h]
    exact bumpFirst_map_date acc _
  · rw [if_neg (fun hc => h ((any_date_iff acc _).mp hc)), if_neg h]
    simp

theorem firstSeen_cons {α : Type} [DecidableEq α] (seen : List α) (x : α)
    (xs : List α) :
    firstSeen seen (x :: xs) =
      if x ∈ seen then firstSeen seen xs
      else x :: firstSeen (x :: seen) xs := rfl

theorem firstSeen_congr {α : Type} [DecidableEq α] (l : List α) :
    ∀ (s1 s2 : List α), (∀ x, x ∈ s1 ↔ x ∈ s2) →
      firstSeen s1 l = firstSeen s2 l := by
  induction l with
  | nil => intro s1 s2 _; rfl
  | cons x xs ih =>
    intro s1 s2 hs
    unfold firstSeen
    by_cases h : x ∈ s1
    · rw [if_pos h, if_pos ((hs x).mp h)]
      exact ih s1 s2 hs
    · rw [if_neg h, if_neg (fun hc => h ((hs x).mpr hc))]
      refine congrArg _ (ih _ _ fun y => ?_)
      simp only [List.mem_cons]
      exact or_congr Iff.rfl (hs y)

theorem foldl_addToTrend_keys (l : List Job) :
    ∀ (acc : List TrendPoint),
      (l.foldl addToTrend acc).map (fun p => p.date) =
        acc.map (fun p => p.date) ++
          firstSeen (acc.map (fun p => p.date))
            (l.map (fun j => monthLabel j.appliedDate)) := by
  induction l with
  | nil => intro acc; simp [firstSeen]
  | cons j t ih =>
    intro acc
    rw [List.foldl_cons, ih (addToTrend acc j), addToTrend_map_date,
      List.map_cons]
    by_cases h : monthLabel j.appliedDate ∈ acc.map (fun p => p.date)
    · rw [if_pos h, firstSeen_cons, if_pos h]
    · rw [if_neg h, firstSeen_cons, if_neg h, List.append_assoc]
      refine congrArg _ (congrArg _ ?_)
      show firstSeen (acc.map (fun p => p.date) ++ [monthLabel j.appliedDate]) _ =
        firstSeen (monthLabel j.appliedDate :: acc.map (fun p => p.date)) _
      refine firstSeen_congr _ _ _ fun y => ?_
      simp only [List.mem_append, List.mem_cons, List.mem_singleton]
      tauto

theorem bumpFirst_pointsSum (acc : List TrendPoint) (d lbl : String)
    (hd : d ∈ acc.map (fun p => p.date)) :
    pointsSum (addToTrend.bumpFirst acc d) lbl =
      pointsSum acc lbl + (if d == lbl then 1 else 0) := by
  induction acc with
  | nil => simp at hd
  | cons e rest ih =>
    by_cases he : (e.date == d) = true
    · have hed : e.date = d := by simpa using he
      unfold addToTrend.bumpFirst
      rw [if_pos he]
      have hdate : ({ e with count := e.count + 1 } : TrendPoint).date = e.date := rfl
      unfold pointsSum
      by_cases hel : (e.date == lbl) = true
      · have hdl : (d == lbl) = true := by rw [← hed]; exact hel
        simp [List.filter_cons, hdate, hel, hdl]
        omega
      · have hdl : (d == lbl) = false := by rw [← hed]; simpa using hel
        simp [List.filter_cons, hdate, hel, hdl]
    · have hd2 : d ∈ rest.map (fun p => p.date) := by
        rcases List.mem_map.mp hd with ⟨q, hq, hqd⟩
        rcases List.mem_cons.mp hq with h | h
        · rw [h] at hqd; exact absurd hqd (by simpa using he)
        · exact List.mem_map.mpr ⟨q, h, hqd⟩
      have hrec := ih hd2
      unfold addToTrend.bumpFirst
      rw [if_neg he]
      unfold pointsSum at hrec ⊢
      by_cases hel : (e.date == lbl) = true
      · simp only [List.filter_cons, hel, if_true, List.map_cons, List.sum_cons]
        omega
      · simp only [List.filter_cons, hel, if_false, Bool.false_eq_true]
        exact hrec

theorem addToTrend_pointsSum (acc : List TrendPoint) (j : Job) (lbl : String) :
    pointsSum (addToTrend acc j) lbl =
      pointsSum acc lbl +
        (if monthLabel j.appliedDate == lbl then 1 else 0) := by
  unfold addToTrend
  by_cases h : acc.any (fun e => e.date == monthLabel j.appliedDate) = true
  · rw [if_pos h]
    exact bumpFirst_pointsSum acc _ lbl ((any_date_iff acc _).mp h)
  · rw [if_neg h]
    unfold pointsSum
    rw [List.filter_append, List.map_append, List.sum_append]
    by_cases hl : (monthLabel j.appliedDate == lbl) = true
    · simp [List.filter_cons, hl]
    · simp [List.filter_cons, hl]

theorem foldl_addToTrend_pointsSum (l : List Job) :
    ∀ (acc : List TrendPoint) (lbl : String),
      pointsSum (l.foldl addToTrend acc) lbl =
        pointsSum acc lbl +
          l.countP (fun j => monthLabel j.appliedDate == lbl) := by
  induction l with
  | nil => intro acc lbl; simp
  | cons j t ih =>
    intro acc lbl
    rw [List.foldl_cons, ih (addToTrend acc j) lbl, addToTrend_pointsSum,
      List.countP_cons]
    by_cases h : (monthLabel j.appliedDate == lbl) = true
    · rw [h]; simp; omega
    · rw [show (monthLabel j.appliedDate == lbl) = false from by simpa using h]
      simp

theorem bumpFirst_total (acc : List TrendPoint) (d : String)
    (hd : d ∈ acc.map (fun p => p.date)) :
    ((addToTrend.bumpFirst acc d).map (fun p => p.count)).sum =
      (acc.map (fun p => p.count)).sum + 1 := by
  induction acc with
  | nil => simp at hd
  | cons e rest ih =>
    by_cases he : (e.date == d) = true
    · unfold addToTrend.bumpFirst
      rw [if_pos he]
      simp
      omega
    · have hd2 : d ∈ rest.map (fun p => p.date) := by
        rcases List.mem_map.mp hd with ⟨q, hq, hqd⟩
        rcases List.mem_cons.mp hq with h | h
        · rw [h] at hqd; exact absurd hqd (by simpa using he)
        · exact List.mem_map.mpr ⟨q, h, hqd⟩
      unfold addToTrend.bumpFirst
      rw [if_neg he]
      simp only [List.map_cons, List.sum_cons, ih hd2]
      omega

theorem addToTrend_total (acc : List TrendPoint) (j : Job) :
    ((addToTrend acc j).map (fun p => p.count)).sum =
      (acc.map (fun p => p.count)).sum + 1 := by
  unfold addToTrend
  by_cases h : acc.any (fun e => e.date == monthLabel j.appliedDate) = true
  · rw [if_pos h]
    exact bumpFirst_total acc _ ((any_date_iff acc _).mp h)
  · rw [if_neg h]
    simp

theorem foldl_addToTrend_total (l : List Job) :
    ∀ (acc : List TrendPoint),
      ((l.foldl addToTrend acc).map (fun p => p.count)).sum =
        (acc.map (fun p => p.count)).sum + l.length := by
  induction l with
  | nil => intro acc; simp
  | cons j t ih =>
    intro acc
    rw [List.foldl_cons, ih (addToTrend acc j), addToTrend_total]
    simp
    omega

theorem firstSeen_sublist {α : Type} [DecidableEq α] (l : List α) :
    ∀ (seen : List α), List.Sublist (firstSeen seen l) l := by
  induction l with
  | nil => intro seen; exact List.Sublist.refl _
  | cons x xs ih =>
    intro seen
    rw [firstSeen_cons]
    by_cases h : x ∈ seen
    · rw [if_pos h]
      exact (ih seen).cons x
    · rw [if_neg h]
      exact (ih (x :: seen)).cons₂ x

theorem firstSeen_nodup {α : Type} [DecidableEq α] (l : List α) :
    ∀ (seen : List α),
      (firstSeen seen l).Nodup ∧ ∀ x ∈ firstSeen seen l, x ∉ seen := by
  induction l with
  | nil => intro seen; exact ⟨List.nodup_nil, by simp [firstSeen]⟩
  | cons x xs ih =>
    intro seen
    rw [firstSeen_cons]
    by_cases h : x ∈ seen
    · rw [if_pos h]; exact ih seen
    · rw [if_neg h]
      obtain ⟨hnd, hnin⟩ := ih (x :: seen)
      refine ⟨List.nodup_cons.mpr ⟨fun hx => ?_, hnd⟩, ?_⟩
      · exact hnin x hx (List.mem_cons_self x seen)
      · intro y hy
        rcases List.mem_cons.mp hy with rfl | hy2
        · exact h
        · exact fun hys => hnin y hy2 (List.mem_cons_of_mem x hys)

theorem firstSeen_mem {α : Type} [DecidableEq α] (l : List α) :
    ∀ (seen : List α) (x : α),
      x ∈ firstSeen seen l ↔ x ∈ l ∧ x ∉ seen := by
  induction l with
  | nil => intro seen x; simp [firstSeen]
  | cons y ys ih =>
    intro seen x
    rw [firstSeen_cons]
    by_cases h : y ∈ seen
    · rw [if_pos h, ih seen x]
      constructor
      · rintro ⟨h1, h2⟩; exact ⟨List.mem_cons_of_mem y h1, h2⟩
      · rintro ⟨h1, h2⟩
        rcases List.mem_cons.mp h1 with rfl | h3
        · exact absurd h h2
        · exact ⟨h3, h2⟩
    · rw [if_neg h]
      constructor
      · intro hx
        rcases List.mem_cons.mp hx with rfl | h2
        · exact ⟨List.mem_cons_self x ys, h⟩
        · obtain ⟨h3, h4⟩ := (ih (y :: seen) x).mp h2
          exact ⟨List.mem_cons_of_mem y h3,
            fun hs => h4 (List.mem_cons_of_mem y hs)⟩
      · rintro ⟨h1, h2⟩
        rcases List.mem_cons.mp h1 with rfl | h3
        · exact List.mem_cons_self x _
        · by_cases hxy : x = y
          · exact hxy ▸ List.mem_cons_self y _
          · exact List.mem_cons_of_mem y ((ih (y :: seen) x).mpr
              ⟨h3, fun hm => (List.mem_cons.mp hm).elim hxy h2⟩)

/-- In an accumulator with distinct labels, a point's count is the total
count carried by its label. -/
theorem pointsSum_of_mem (acc : List TrendPoint)
    (hnd : (acc.map (fun p => p.date)).Nodup) (p : TrendPoint) (hp : p ∈ acc) :
    pointsSum acc p.date = p.count := by
  induction acc with
  | nil => simp at hp
  | cons e rest ih =>
    rw [List.map_cons, List.nodup_cons] at hnd
    rcases List.mem_cons.mp hp with rfl | hp2
    · unfold pointsSum
      rw [List.filter_cons, if_pos (by simp)]
      have hzero : pointsSum rest p.date = 0 := by
        unfold pointsSum
        rw [show rest.filter (fun q => q.date == p.date) = [] from
          List.filter_eq_nil_iff.mpr fun q hq hqd => hnd.1 (by
            exact (by simpa using hqd : q.date = p.date) ▸
              List.mem_map_of_mem (fun r => r.date) hq)]
        rfl
      unfold pointsSum at hzero
      simp [hzero]
    · have hne : (e.date == p.date) = false := by
        refine (Bool.eq_false_iff).mpr fun hc => hnd.1 ?_
        exact (by simpa using hc : e.date = p.date) ▸
          List.mem_map_of_mem (fun r => r.date) hp2
      unfold pointsSum
      rw [List.filter_cons, if_neg (by simp [hne])]
      exact ih hnd.2 hp2

theorem firstSeen_map {α β : Type} [DecidableEq α] [DecidableEq β]
    (f : α → β) (l : List α) :
    ∀ (seen : List α),
      (∀ a b, (a ∈ seen ∨ a ∈ l) → (b ∈ seen ∨ b ∈ l) → f a = f b → a = b) →
      firstSeen (seen.map f) (l.map f) = (firstSeen seen l).map f := by
  induction l with
  | nil => intro seen _; rfl
  | cons x xs ih =>
    intro seen hinj
    rw [List.map_cons, firstSeen_cons, firstSeen_cons]
    by_cases h : x ∈ seen
    · rw [if_pos (List.mem_map_of_mem f h), if_pos h]
      exact ih seen fun a b ha hb =>
        hinj a b
          (by rcases ha with ha | ha
              · exact Or.inl ha
              · exact Or.inr (List.mem_cons_of_mem x ha))
          (by rcases hb with hb | hb
              · exact Or.inl hb
              · exact Or.inr (List.mem_cons_of_mem x hb))
    · have hfx : f x ∉ seen.map f := by
        intro hc
        rcases List.mem_map.mp hc with ⟨y, hy, hyx⟩
        exact h ((hinj y x (Or.inl hy)
          (Or.inr (List.mem_cons_self x xs)) hyx) ▸ hy)
      rw [if_neg hfx, if_neg h, List.map_cons]
      refine congrArg _ ?_
      rw [show (f x :: seen.map f) = (x :: seen).map f from rfl]
      exact ih (x :: seen) fun a b ha hb =>
        hinj a b
          (by rcases ha with ha | ha
              · rcases List.mem_cons.mp ha with rfl | ha2
                · exact Or.inr (List.mem_cons_self a xs)
                · exact Or.inl ha2
              · exact Or.inr (List.mem_cons_of_mem x ha))
          (by rcases hb with hb | hb
              · rcases List.mem_cons.mp hb with rfl | hb2
                · exact Or.inr (List.mem_cons_self b xs)
                · exact Or.inl hb2
              · exact Or.inr (List.mem_cons_of_mem x hb))

/-- First-seen deduplication of a nondecreasing list of months is strictly
increasing. -/
theorem dedupFirstSeen_pairwise_lt (l : List Nat)
    (h : List.Pairwise (fun a b => a ≤ b) l) :
    List.Pairwise (fun a b => a < b) (dedupFirstSeen l) := by
  have hle : List.Pairwise (fun a b => a ≤ b) (dedupFirstSeen l) :=
    List.Pairwise.sublist (firstSeen_sublist l []) h
  have hnd : (dedupFirstSeen l).Nodup := (firstSeen_nodup l []).1
  exact (hle.and hnd).imp fun hab => Nat.lt_of_le_of_ne hab.1 hab.2

/-- C5: `getChartsDataAction` on the success path. The window filter keeps
exactly the owner's records with applied date ≥ now − 6 months (the boundary
is inclusive; a record 7 months old fails it); the points' counts sum to the
number of included records; each point's count is the number of included
records carrying its "MMM YY" label; labels are pairwise distinct (one point
per distinct month label); the label sequence is the first-seen
deduplication of the labels of the included records iterated in ascending
applied-date order; a label occurs iff some included record has it; and
whenever the "MMM YY" labels distinguish the included months (true for any
real 6-month window), the points stand in strictly ascending month order. -/
theorem monthlyTrendCorrect (userId : String) (now : Nat) (db : List Job)
    (points : List TrendPoint)
    (hout : getChartsDataAction userId now false db = .ok points) :
    (∀ j, j ∈ db.filter (fun j => j.clerkId == userId &&
        now - 6 * monthUnit ≤ j.appliedDate) ↔
      j ∈ db ∧ j.clerkId = userId ∧ now - 6 * monthUnit ≤ j.appliedDate) ∧
    (points.map (fun p => p.count)).sum =
      (db.filter (fun j => j.clerkId == userId &&
        now - 6 * monthUnit ≤ j.appliedDate)).length ∧
    (∀ p ∈ points, p.count =
      (db.filter (fun j => j.clerkId == userId &&
        now - 6 * monthUnit ≤ j.appliedDate)).countP
        (fun j => monthLabel j.appliedDate == p.date)) ∧
    (points.map (fun p => p.date)).Nodup ∧
    points.map (fun p => p.date) =
      dedupFirstSeen ((sortByAppliedAsc (db.filter
        (fun j => j.clerkId == userId && now - 6 * monthUnit ≤ j.appliedDate))).map
          (fun j => monthLabel j.appliedDate)) ∧
    (∀ lbl, lbl ∈ points.map (fun p => p.date) ↔
      ∃ j ∈ db.filter (fun j => j.clerkId == userId &&
        now - 6 * monthUnit ≤ j.appliedDate), monthLabel j.appliedDate = lbl) ∧
    ((∀ j1 ∈ db.filter (fun j => j.clerkId == userId &&
          now - 6 * monthUnit ≤ j.appliedDate),
      ∀ j2 ∈ db.filter (fun j => j.clerkId == userId &&
          now - 6 * monthUnit ≤ j.appliedDate),
        monthLabel j1.appliedDate = monthLabel j2.appliedDate →
        monthIdx j1.appliedDate = monthIdx j2.appliedDate) →
      points.map (fun p => p.date) =
        (dedupFirstSeen ((sortByAppliedAsc (db.filter
          (fun j => j.clerkId == userId && now - 6 * monthUnit ≤ j.appliedDate))).map
            (fun j => monthIdx j.appliedDate))).map labelOfMonth ∧
      List.Pairwise (fun a b => a < b)
        (dedupFirstSeen ((sortByAppliedAsc (db.filter
          (fun j => j.clerkId == userId && now - 6 * monthUnit ≤ j.appliedDate))).map
            (fun j => monthIdx j.appliedDate)))) := by
  have hpts : points =
      (sortByAppliedAsc (db.filter (fun j => j.clerkId == userId &&
        now - 6 * monthUnit ≤ j.appliedDate))).foldl addToTrend [] := by
    unfold getChartsDataAction at hout
    simp only [Bool.false_eq_true, if_false, ActionResult.ok.injEq] at hout
    exact hout.symm
  set incl := db.filter (fun j => j.clerkId == userId &&
    now - 6 * monthUnit ≤ j.appliedDate) with hincl
  set asc := sortByAppliedAsc incl with hasc
  have hperm : asc.Perm incl := List.perm_insertionSort _ _
  have hkeys : points.map (fun p => p.date) =
      dedupFirstSeen (asc.map (fun j => monthLabel j.appliedDate)) := by
    rw [hpts, foldl_addToTrend_keys]
    rfl
  have hnodup : (points.map (fun p => p.date)).Nodup := by
    rw [hkeys]
    exact (firstSeen_nodup _ []).1
  refine ⟨?_, ?_, ?_, hnodup, hkeys, ?_, ?_⟩
  · intro j
    rw [hincl, List.mem_filter]
    simp [and_assoc]
  · rw [hpts, foldl_addToTrend_total, hperm.length_eq]
    simp
  · intro p hp
    have h1 : pointsSum points p.date = p.count := pointsSum_of_mem points hnodup p hp
    rw [← h1, hpts, foldl_addToTrend_pointsSum]
    have h2 : pointsSum [] p.date = 0 := rfl
    rw [h2, Nat.zero_add]
    exact (hperm.countP_eq _).symm ▸ rfl
  · intro lbl
    rw [hkeys]
    unfold dedupFirstSeen
    rw [firstSeen_mem]
    simp only [List.not_mem_nil, not_false_iff, and_true, List.mem_map]
    constructor
    · rintro ⟨j, hj, rfl⟩; exact ⟨j, hperm.mem_iff.mp hj, rfl⟩
    · rintro ⟨j, hj, rfl⟩; exact ⟨j, hperm.mem_iff.mpr hj, rfl⟩
  · intro hinj
    have hinjm : ∀ a b,
        (a ∈ ([] : List Nat) ∨ a ∈ asc.map (fun j => monthIdx j.appliedDate)) →
        (b ∈ ([] : List Nat) ∨ b ∈ asc.map (fun j => monthIdx j.appliedDate)) →
        labelOfMonth a = labelOfMonth b → a = b := by
      rintro a b (ha | ha) (hb | hb) hab
      · simp at ha
      · simp at ha
      · simp at hb
      · rcases List.mem_map.mp ha with ⟨j1, hj1, rfl⟩
        rcases List.mem_map.mp hb with ⟨j2, hj2, rfl⟩
        exact hinj j1 (hperm.mem_iff.mp hj1) j2 (hperm.mem_iff.mp hj2) hab
    have hcommute :
        dedupFirstSeen (asc.map (fun j => monthLabel j.appliedDate)) =
          (dedupFirstSeen (asc.map (fun j => monthIdx j.appliedDate))).map
            labelOfMonth := by
      unfold dedupFirstSeen
      rw [show asc.map (fun j => monthLabel j.appliedDate) =
          (asc.map (fun j => monthIdx j.appliedDate)).map labelOfMonth from by
        rw [List.map_map]; rfl]
      rw [show ([] : List String) = ([] : List Nat).map labelOfMonth from rfl]
      exact firstSeen_map labelOfMonth _ [] hinjm
    have hsorted : List.Pairwise (fun a b => a ≤ b)
        (asc.map (fun j => monthIdx j.appliedDate)) := by
      have hs : List.Pairwise (fun (a b : Job) => a.appliedDate ≤ b.appliedDate) asc := by
        rw [hasc]
        unfold sortByAppliedAsc
        letI : IsTotal Job (fun a b => a.appliedDate ≤ b.appliedDate) :=
          ⟨fun a b => Nat.le_total a.appliedDate b.appliedDate⟩
        letI : IsTrans Job (fun a b => a.appliedDate ≤ b.appliedDate) :=
          ⟨fun _ _ _ h1 h2 => Nat.le_trans h1 h2⟩
        exact List.sorted_insertionSort _ _
      rw [List.pairwise_map]
      exact hs.imp fun hab => Nat.div_le_div_right hab
    exact ⟨hkeys.trans hcommute, dedupFirstSeen_pairwise_lt _ hsorted⟩

/-- Witness for C5: `now` at month 20 plus an offset; the record applied
exactly 7 months earlier is excluded, the one exactly at the 6-month
boundary is included, counts are per month, and the points ascend. -/
theorem monthlyTrendCorrect_witness :
    getChartsDataAction "A" (20 * monthUnit + 100) false c5Db =
      .ok [⟨monthLabel (14 * monthUnit + 100), 1⟩,
           ⟨monthLabel (15 * monthUnit), 1⟩] ∧
    mkJob "old" "A" "applied" "remote" (13 * monthUnit + 100) 0 ∉
      c5Db.filter (fun j => j.clerkId == "A" &&
        (20 * monthUnit + 100) - 6 * monthUnit ≤ j.appliedDate) ∧
    (List.map (fun p => p.count)
      [(⟨monthLabel (14 * monthUnit + 100), 1⟩ : TrendPoint),
       ⟨monthLabel (15 * monthUnit), 1⟩]).sum =
      (c5Db.filter (fun j => j.clerkId == "A" &&
        (20 * monthUnit + 100) - 6 * monthUnit ≤ j.appliedDate)).length ∧
    List.Pairwise (fun a b => a < b)
      (dedupFirstSeen ((sortByAppliedAsc (c5Db.filter
        (fun j => j.clerkId == "A" &&
          (20 * monthUnit + 100) - 6 * monthUnit ≤ j.appliedDate))).map
            (fun j => monthIdx j.appliedDate))) := by
  have h := monthlyTrendCorrect "A" (20 * monthUnit + 100) c5Db
    [⟨monthLabel (14 * monthUnit + 100), 1⟩, ⟨monthLabel (15 * monthUnit), 1⟩]
    (by decide)
  exact ⟨by decide, by decide, h.2.1, (h.2.2.2.2.2.2 (by decide)).2⟩

end JobTracker
